import Mathlib

/-
Verification of the label collision resolution engine of this repository
(the `Collision` module defined at the end of demos/main.js, together with
the `RepeatGroup` tracker it imports).

The JavaScript code is shallowly embedded:
  * mutable JS objects become Lean structures threaded through functions;
  * the mutable `label.placed` field (shared between a candidate and its
    possible occurrence as another candidate's `linked` object) becomes a
    store `PlacedStore : Nat -> Option Bool` keyed by label id;
  * the process-wide `RepeatGroup.groups` registry becomes a function
    `RepeatState : String -> String -> List Point` (tile, then group key);
  * the polymorphic `Label.discard` bbox-overlap capability is an oracle
    parameter `Discard` (the coordinator only depends on its interface);
  * the `Collision.tiles` registry becomes an association list from tile
    id to an index into a heap of every `TileState` ever created; the heap
    models JS object identity: a `collide` call closes over the state
    object that was registered at call time, and that object survives
    (and its promise can still fire) even after the registry entry is
    deleted or overwritten by a later `startTile`;
  * the per-tile completion promise becomes the Boolean `resolved` on the
    state: a suspended `collide` call is a pair (heap index, style name)
    and its result `state.keep[style] || []` becomes observable exactly
    when `resolved` is set (see `waiterResult`);
  * a JS property access on `undefined` becomes `Except.error
    JsErr.undefinedAccess`; code paths the source guards are total.
-/

/-- Anchor points of labels, in tile-local coordinates. -/
abbrev Point := Int × Int

/-- Layout configuration of a label, per the fields the collision engine
reads: `priority` (lower numeric value = placed first), the `collide`
opt-in flag for bbox testing, and the repeat-group fields. -/
structure Layout where
  priority : Int
  collide : Bool
  repeat_group : String
  repeat_dist_sq : Int
  one_per_group : Bool
deriving DecidableEq, Repr

/-- A label: an id (modelling JS reference identity, used to key the
mutable `placed` field), its layout, and its anchor point. -/
structure Label where
  id : Nat
  layout : Layout
  anchor : Point
deriving DecidableEq, Repr

/-- A collision candidate object: wraps a label plus an optional linked
object. In the source `linked` is itself a candidate object, but the
engine only ever reads `linked.label`, so the link is flattened to the
linked object's label. -/
structure CObj where
  oid : Nat
  label : Label
  linked : Option Label
deriving DecidableEq, Repr

/-- The store of the mutable tri-state `label.placed` fields, keyed by
label id: `none` = undecided (JS null), `some b` = decided. -/
abbrev PlacedStore := Nat → Option Bool

def setPlaced (P : PlacedStore) (id : Nat) (b : Bool) : PlacedStore :=
  fun i => if i = id then some b else P i

/-- The process-wide repeat-group registry: tile id, then group key, to
the anchors of previously placed members of that group in that tile. -/
abbrev RepeatState := String → String → List Point

/-- The bbox-overlap oracle: `label.discard(bboxes, exclude)` of the
Label capability contract. It receives the label, the placed labels
(whose geometry is registered in `bboxes`), and the optional excluded
label, and answers whether the label overlaps something it is not
excluded from. -/
abbrev Discard := Label → List Label → Option Label → Bool

/-- Squared distance between two anchors. -/
def distSq (a b : Point) : Int :=
  (a.1 - b.1) * (a.1 - b.1) + (a.2 - b.2) * (a.2 - b.2)

namespace RepeatGroup

/-- Modelled from the spec: the `RepeatGroup` module is imported by
demos/main.js but its file is not part of this repository's sources.
Spec 4.2: `clear(tileId)` wipes all entries for a tile. -/
def clear (tile : String) (rep : RepeatState) : RepeatState :=
  fun t g => if t = tile then [] else rep t g

/-- Modelled from the spec: spec 4.2, `check(label, layout, tileId)`
scans previously added anchors in the same (group key, tile) bucket; a
violation exists if any prior anchor lies within the configured minimum
repeat distance (compared in squared form); the `one_per_group` flag
makes any prior member a violation regardless of distance. -/
def check (label : Label) (layout : Layout) (tile : String) (rep : RepeatState) : Bool :=
  let bucket := rep tile layout.repeat_group
  if layout.one_per_group then
    !bucket.isEmpty
  else
    bucket.any (fun a => distSq a label.anchor < layout.repeat_dist_sq)

/-- Modelled from the spec: spec 4.2, `add(label, layout, tileId)`
appends the label's anchor into the (group key, tile) bucket; called only
for accepted placements. -/
def add (label : Label) (layout : Layout) (tile : String) (rep : RepeatState) : RepeatState :=
  fun t g =>
    if t = tile ∧ g = layout.repeat_group then
      rep t g ++ [label.anchor]
    else rep t g

end RepeatGroup

/-- Association-list lookup into `keep` (objects kept per style); the
default is the empty list, matching `keep[style] || []`. -/
def keepLookup (k : List (String × List CObj)) (s' : String) : List CObj :=
  match k with
  | [] => []
  | (s, l) :: rest => if s = s' then l else keepLookup rest s'

/-- Append an object to a style's entry of `keep`
(JS `keep[style].push(object)`; creates the entry if absent). -/
def pushKeep (k : List (String × List CObj)) (style : String) (o : CObj) :
    List (String × List CObj) :=
  match k with
  | [] => [(style, [o])]
  | (s, l) :: rest =>
    if s = style then (s, l ++ [o]) :: rest else (s, l) :: pushKeep rest style o

/-- JS `keep[style] = keep[style] || []`: materialise an (empty) entry
for a style if none exists yet. -/
def ensureKeep (style : String) (k : List (String × List CObj)) :
    List (String × List CObj) :=
  if k.any (fun e => e.1 = style) then k else k ++ [(style, [])]

/-- The mutable state threaded through one tile's resolution pass:
`state.keep`, `state.bboxes` (the placed labels, standing for the aabb
and obb arrays their geometry is pushed into), the `placed` store of all
labels, and the repeat-group registry. -/
structure ResState where
  keep : List (String × List CObj)
  bboxes : List Label
  placed : PlacedStore
  rep : RepeatState

/-- Embedding of `Collision.canBePlaced(object, tile, exclude)`. The
source reads only `object.label` and `exclude && exclude.label`, so the
embedding takes the labels directly. Returns the JS return value and the
updated placed store (its only mutation). The source's trailing
`else if (layout.collide)` is reached only when `layout.collide` holds,
so that branch is unconditional here. -/
def canBePlaced (d : Discard) (tile : String) (st : ResState)
    (label : Label) (exclude : Option Label) : Bool × PlacedStore :=
  match st.placed label.id with
  | some b => (b, st.placed)
  | none =>
    if !label.layout.collide || !(d label st.bboxes exclude) then
      if RepeatGroup.check label label.layout tile st.rep then
        (false, setPlaced st.placed label.id false)
      else
        (true, st.placed)
    else
      (false, setPlaced st.placed label.id false)

/-- Embedding of `Collision.place({ label }, tile)`: skip if the label is
already decided; otherwise register it with the repeat tracker and call
`label.add(bboxes)`. Per the spec's Label capability contract (spec 3 and
6), `add` registers the geometry as placed: the label is appended to the
placed boxes and its `placed` field becomes true (the `add` method is not
part of this repository's sources; modelled from the spec). -/
def place (tile : String) (st : ResState) (label : Label) : ResState :=
  match st.placed label.id with
  | some _ => st
  | none =>
    { st with
      rep := RepeatGroup.add label label.layout tile st.rep
      bboxes := st.bboxes ++ [label]
      placed := setPlaced st.placed label.id true }

/-- One iteration of the innermost loop of `Collision.endTile`: test one
candidate object of one style and accept or reject it (atomically with
its linked object, if any). -/
def processObject (d : Discard) (tile style : String) (st : ResState) (object : CObj) :
    ResState :=
  let c1 := canBePlaced d tile st object.label object.linked
  let st1 := { st with placed := c1.2 }
  if c1.1 then
    match object.linked with
    | none =>
      place tile { st1 with keep := pushKeep st1.keep style object } object.label
    | some l =>
      let c2 := canBePlaced d tile st1 l (some object.label)
      let st2 := { st1 with placed := c2.2 }
      if c2.1 then
        place tile
          (place tile { st2 with keep := pushKeep st2.keep style object } object.label) l
      else st2
  else st1

/-- One style's group at one priority: `keep[style] = keep[style] || []`
then the object loop, in submission order. -/
def processStyle (d : Discard) (tile : String) (st : ResState)
    (entry : String × List CObj) : ResState :=
  entry.2.foldl (processObject d tile entry.1) { st with keep := ensureKeep entry.1 st.keep }

/-- One priority level: iterate the styles that contributed at this
priority, in insertion order (JS object key enumeration for string
keys). -/
def processPriority (d : Discard) (tile : String) (st : ResState)
    (group : Int × List (String × List CObj)) : ResState :=
  group.2.foldl (processStyle d tile) st

/-- Insert a priority group into a list sorted by ascending priority. -/
def insertSorted (x : Int × List (String × List CObj))
    (l : List (Int × List (String × List CObj))) :
    List (Int × List (String × List CObj)) :=
  match l with
  | [] => [x]
  | y :: ys => if x.1 ≤ y.1 then x :: y :: ys else y :: insertSorted x ys

/-- Embedding of `Object.keys(state.objects).sort((a, b) => a - b)`: the
priority groups, in ascending numeric priority order. -/
def sortByPriority (l : List (Int × List (String × List CObj))) :
    List (Int × List (String × List CObj)) :=
  l.foldr insertSorted []

/-- The per-tile collision state (`this.tiles[tile]`): placed boxes,
pending objects grouped by priority then style (association lists in
insertion order), kept objects by style, the awaiting style set, and
whether the completion promise has been resolved. -/
structure TileState where
  bboxes : List Label
  objects : List (Int × List (String × List CObj))
  keep : List (String × List CObj)
  styles : List String
  resolved : Bool
deriving DecidableEq, Repr

/-- Embedding of the resolution pass of `Collision.endTile(tile)`: clear
the repeat-group entries for the tile, then process the pending objects
by ascending priority, then by style, then in submission order. (The
registry deletion and promise resolution that follow in the source are
modelled in the system-level `collide`.) -/
def endTile (d : Discard) (tile : String) (ts : TileState)
    (rs : RepeatState) (P : PlacedStore) : ResState :=
  (sortByPriority ts.objects).foldl (processPriority d tile)
    ⟨ts.keep, ts.bboxes, P, RepeatGroup.clear tile rs⟩

example :
    let lbl : Label := ⟨0, ⟨1, true, "g", 0, false⟩, (0, 0)⟩
    let obj : CObj := ⟨0, lbl, none⟩
    let ts : TileState := ⟨[], [(1, [("S", [obj])])], [], [], false⟩
    keepLookup (endTile (fun _ _ _ => false) "T" ts (fun _ _ => []) (fun _ => none)).keep "S"
      = [obj] := by decide

/-- A JavaScript runtime error: a property access on `undefined`. -/
inductive JsErr where
  | undefinedAccess
deriving DecidableEq, Repr

/-- The whole collision system: the heap of every tile state ever
created (a `collide` call closes over its state object, which survives
deletion from the registry), the `Collision.tiles` registry mapping tile
ids to heap indices, the process-wide repeat-group registry, and the
placed store of all labels. -/
structure Sys where
  heap : List TileState
  tiles : List (String × Nat)
  rep : RepeatState
  placed : PlacedStore

/-- The empty system: no tiles, no repeat-group entries, every label
undecided. -/
def initSys : Sys := ⟨[], [], fun _ _ => [], fun _ => none⟩

def lookupTile (ts : List (String × Nat)) (t : String) : Option Nat :=
  match ts with
  | [] => none
  | (u, i) :: rest => if u = t then some i else lookupTile rest t

def eraseTile (ts : List (String × Nat)) (t : String) : List (String × Nat) :=
  ts.filter (fun e => e.1 ≠ t)

def setTile (ts : List (String × Nat)) (t : String) (i : Nat) : List (String × Nat) :=
  (t, i) :: eraseTile ts t

/-- The state a fresh `startTile` builds: empty bboxes, objects, keep and
styles, and a fresh unresolved completion promise. -/
def freshTileState : TileState := ⟨[], [], [], [], false⟩

/-- Embedding of `Collision.startTile(tile)`: `this.tiles[tile]` is
unconditionally assigned a freshly created state object. Because `state`
is that fresh object, the source's `if (state.complete == null)` guard
always holds and a fresh promise is created every time. -/
def startTile (s : Sys) (tile : String) : Sys :=
  { s with
    heap := s.heap ++ [freshTileState]
    tiles := setTile s.tiles tile s.heap.length }

/-- Embedding of `Collision.resetTile(tile)`: delete the registry
entry. -/
def resetTile (s : Sys) (tile : String) : Sys :=
  { s with tiles := eraseTile s.tiles tile }

/-- Index into the heap of tile states (JS object dereference). -/
def heapGet : List TileState → Nat → Option TileState
  | [], _ => none
  | ts :: _, 0 => some ts
  | _ :: rest, n + 1 => heapGet rest n

/-- Set the completion promise of the heap state at an index to
resolved. Resolving twice is not observable (a promise settles once). -/
def resolveAt (heap : List TileState) (idx : Nat) : List TileState :=
  match heapGet heap idx with
  | some ts => heap.set idx { ts with resolved := true }
  | none => heap

/-- Embedding of `Collision.abortTile(tile)`: if a registered state
exists (for a registered state `resolve` is still non-null, since
`collide` continuations null it only after resolution, by which point
the registry entry is already gone), resolve its promise with `[]`; then
`resetTile`. Every access is guarded, so this never throws. -/
def abortTile (s : Sys) (tile : String) : Sys :=
  match lookupTile s.tiles tile with
  | some idx => resetTile { s with heap := resolveAt s.heap idx } tile
  | none => resetTile s tile

/-- JS `state.styles[style] = true`: add a key to the awaiting-style set
(insertion order, re-adding is a no-op). -/
def addStyleName (styles : List String) (style : String) : List String :=
  if style ∈ styles then styles else styles ++ [style]

/-- JS `delete state.styles[style]`. -/
def eraseStyle (styles : List String) (style : String) : List String :=
  styles.filter (fun s => s ≠ style)

/-- Embedding of `Collision.addStyle(style, tile)`: the source reads
`this.tiles[tile].styles` with no guard, so a missing tile is a property
access on `undefined`. -/
def addStyle (s : Sys) (style tile : String) : Except JsErr Sys :=
  match lookupTile s.tiles tile with
  | none => .error .undefinedAccess
  | some idx =>
    match heapGet s.heap idx with
    | none => .error .undefinedAccess
    | some ts =>
      .ok { s with heap := s.heap.set idx { ts with styles := addStyleName ts.styles style } }

/-- Embedding of the grouping loop of `Collision.collide`:
`tile_objects[priority][style].push(obj)` with on-demand creation of the
priority and style entries. -/
def pushGroup (style : String) (o : CObj) (g : List (String × List CObj)) :
    List (String × List CObj) :=
  match g with
  | [] => [(style, [o])]
  | (s, l) :: rest =>
    if s = style then (s, l ++ [o]) :: rest else (s, l) :: pushGroup style o rest

def pushObj (prio : Int) (style : String) (o : CObj)
    (objects : List (Int × List (String × List CObj))) :
    List (Int × List (String × List CObj)) :=
  match objects with
  | [] => [(prio, pushGroup style o [])]
  | (p, g) :: rest =>
    if p = prio then (p, pushGroup style o g) :: rest else (p, g) :: pushObj prio style o rest

/-- Group a `collide` call's objects by priority, then by style, into
the tile's pending objects. -/
def groupByPriority (objs : List CObj) (style : String)
    (objects : List (Int × List (String × List CObj))) :
    List (Int × List (String × List CObj)) :=
  objs.foldl (fun acc o => pushObj o.label.layout.priority style o acc) objects

/-- What a `collide` call returns: either an immediately resolved value
(the missing-tile path) or a computation suspended on the completion
promise of the heap state it closed over, identified by heap index and
the calling style. -/
inductive CollideOutcome where
  | immediate (result : List CObj)
  | suspended (stateIdx : Nat) (style : String)
deriving DecidableEq, Repr

/-- Result of a `collide` call: the updated system, the outcome, and the
log levels emitted. -/
structure CollideRes where
  sys : Sys
  outcome : CollideOutcome
  log : List String

/-- Embedding of `Collision.collide(objects, style, tile)`. If no state
exists for the tile, log at trace level and return an immediately
resolved empty sequence. Otherwise group the objects, remove the style
from the awaiting set, and if no styles remain run `endTile` (which
resolves the promise and deletes the registry entry); the call's own
return value is suspended on the state's promise. The inner `heap.get?`
cannot fail (the registry only ever holds indices of heap states; in JS
the registry stores the state object itself). -/
def collide (d : Discard) (s : Sys) (objs : List CObj) (style tile : String) :
    Except JsErr CollideRes :=
  match lookupTile s.tiles tile with
  | none => .ok ⟨s, .immediate [], ["trace"]⟩
  | some idx =>
    match heapGet s.heap idx with
    | none => .error .undefinedAccess
    | some ts =>
      let ts1 := { ts with
        objects := groupByPriority objs style ts.objects
        styles := eraseStyle ts.styles style }
      if ts1.styles.isEmpty then
        let r := endTile d tile ts1 s.rep s.placed
        let ts2 := { ts1 with keep := r.keep, bboxes := r.bboxes, resolved := true }
        .ok ⟨⟨s.heap.set idx ts2, eraseTile s.tiles tile, r.rep, r.placed⟩,
             .suspended idx style, []⟩
      else
        .ok ⟨{ s with heap := s.heap.set idx ts1 }, .suspended idx style, []⟩

/-- The system after a `collide` call (the call never throws; the error
branch is the unreachable dangling-index artifact). -/
def sysAfterCollide (d : Discard) (s : Sys) (objs : List CObj) (style tile : String) : Sys :=
  match collide d s objs style tile with
  | .ok r => r.sys
  | .error _ => s

/-- Observation of a suspended `collide` call: once the promise of the
state it closed over is resolved, the continuation yields
`state.keep[style] || []`; while the promise is pending the call stays
suspended (`none`). -/
def waiterResult (s : Sys) (idx : Nat) (style : String) : Option (List CObj) :=
  match heapGet s.heap idx with
  | none => none
  | some ts => if ts.resolved then some (keepLookup ts.keep style) else none

/-- Whether an `Except` is a success. -/
def exOk : Except JsErr Sys → Bool
  | .ok _ => true
  | .error _ => false

/-- The registered state of a tile, if any. -/
def registeredState (s : Sys) (tile : String) : Option TileState :=
  match lookupTile s.tiles tile with
  | none => none
  | some idx => heapGet s.heap idx

example : registeredState (startTile initSys "T") "T" = some freshTileState := by decide

example :
    lookupTile (abortTile (startTile initSys "T") "T").tiles "T" = none := by decide

theorem lookupTile_eraseTile (ts : List (String × Nat)) (t : String) :
    lookupTile (eraseTile ts t) t = none := by
  induction ts with
  | nil => rfl
  | cons e rest ih =>
    by_cases he : e.1 = t
    · simpa [eraseTile, List.filter, he] using ih
    · simpa [eraseTile, List.filter, he, lookupTile] using ih

theorem eraseTile_idem (ts : List (String × Nat)) (t : String) :
    eraseTile (eraseTile ts t) t = eraseTile ts t := by
  induction ts with
  | nil => rfl
  | cons e rest ih =>
    by_cases he : e.1 = t
    · simp only [eraseTile, List.filter] at ih ⊢
      simp [he, ih]
    · simp only [eraseTile, List.filter] at ih ⊢
      simp [he, ih]

theorem lookupTile_setTile (ts : List (String × Nat)) (t : String) (i : Nat) :
    lookupTile (setTile ts t i) t = some i := by
  simp [setTile, lookupTile]

theorem heapGet_append_self (l : List TileState) (x : TileState) :
    heapGet (l ++ [x]) l.length = some x := by
  induction l with
  | nil => rfl
  | cons a rest ih => simpa [heapGet] using ih

theorem heapGet_append_lt (l : List TileState) (x : TileState) (i : Nat) (h : i < l.length) :
    heapGet (l ++ [x]) i = heapGet l i := by
  induction l generalizing i with
  | nil => simp at h
  | cons a rest ih =>
    cases i with
    | zero => rfl
    | succ n => simpa [heapGet] using ih n (by simpa using h)

theorem heapGet_set_self (l : List TileState) (i : Nat) (x : TileState) (h : i < l.length) :
    heapGet (l.set i x) i = some x := by
  induction l generalizing i with
  | nil => simp at h
  | cons a rest ih =>
    cases i with
    | zero => rfl
    | succ n => simpa [heapGet] using ih n (by simpa using h)

theorem heapGet_lt_length (l : List TileState) (i : Nat) (x : TileState)
    (h : heapGet l i = some x) : i < l.length := by
  induction l generalizing i with
  | nil => simp [heapGet] at h
  | cons a rest ih =>
    cases i with
    | zero => simp
    | succ n =>
      have := ih n (by simpa [heapGet] using h)
      simpa using this

theorem heapGet_mem (l : List TileState) (i : Nat) (x : TileState)
    (h : heapGet l i = some x) : x ∈ l := by
  induction l generalizing i with
  | nil => simp [heapGet] at h
  | cons a rest ih =>
    cases i with
    | zero =>
      simp [heapGet] at h
      simp [h]
    | succ n =>
      exact List.mem_cons_of_mem a (ih n (by simpa [heapGet] using h))

theorem registeredState_startTile (s : Sys) (tile : String) :
    registeredState (startTile s tile) tile = some freshTileState := by
  unfold registeredState startTile
  rw [lookupTile_setTile]
  exact heapGet_append_self s.heap freshTileState

/-- C5: for every objects sequence and style name, calling `collide` for
a tile id that has no active state never throws: it logs a trace
diagnostic and returns an immediately-resolved empty sequence, leaving
the system unchanged. -/
theorem collision_c5_collide_missing_tile (d : Discard) (s : Sys) (objs : List CObj)
    (style tile : String) (h : lookupTile s.tiles tile = none) :
    collide d s objs style tile = .ok ⟨s, .immediate [], ["trace"]⟩ := by
  unfold collide
  rw [h]

/-- Witness for C5 at a concrete input: the empty system has no state
for tile T. -/
theorem collision_c5_witness :
    collide (fun _ _ _ => false) initSys [] "roads" "T"
      = .ok ⟨initSys, .immediate [], ["trace"]⟩ :=
  collision_c5_collide_missing_tile (fun _ _ _ => false) initSys [] "roads" "T" rfl

/-- C8: resolution of a tile clears the repeat-group tracker's entries
for that tile first, before any candidate is evaluated, so the whole
resolution result (kept objects, placed boxes, placed fields, and final
repeat-group registry) is independent of whatever entries the tracker
held for that tile beforehand: two initial repeat states that agree on
all other tiles yield identical resolutions. -/
theorem collision_c8_stale_repeat_entries_cleared (d : Discard) (tile : String)
    (ts : TileState) (rs1 rs2 : RepeatState) (P : PlacedStore)
    (h : ∀ t g, t ≠ tile → rs1 t g = rs2 t g) :
    endTile d tile ts rs1 P = endTile d tile ts rs2 P := by
  have hc : RepeatGroup.clear tile rs1 = RepeatGroup.clear tile rs2 := by
    funext t g
    by_cases ht : t = tile
    · simp [RepeatGroup.clear, ht]
    · simp [RepeatGroup.clear, ht, h t g ht]
  unfold endTile
  rw [hc]

def c8rs1 : RepeatState := fun t _ => if t = "T" then [((0 : Int), (0 : Int))] else []

def c8rs2 : RepeatState := fun _ _ => []

def c8ts : TileState :=
  ⟨[], [(1, [("roads", [⟨0, ⟨0, ⟨1, true, "g", 400, false⟩, (0, 0)⟩, none⟩])])], [], [], false⟩

/-- Witness for C8 at a concrete input: a stale anchor bucket for tile T
does not change that tile's resolution. -/
theorem collision_c8_witness :
    endTile (fun _ _ _ => false) "T" c8ts c8rs1 (fun _ => none)
      = endTile (fun _ _ _ => false) "T" c8ts c8rs2 (fun _ => none) :=
  collision_c8_stale_repeat_entries_cleared (fun _ _ _ => false) "T" c8ts c8rs1 c8rs2
    (fun _ => none) (by intro t g ht; simp [c8rs1, c8rs2, ht])

/-- C6: a label whose layout has collide = false is never subjected to
the bbox overlap test: the outcome of canBePlaced does not depend on the
discard capability at all (it is never invoked), and, when the label is
undecided, the label is rejected exactly when the repeat-group check
reports a violation (never by the overlap test). -/
theorem collision_c6_no_overlap_test_when_collide_false (d d' : Discard) (tile : String)
    (st : ResState) (label : Label) (exclude : Option Label)
    (h : label.layout.collide = false) :
    canBePlaced d tile st label exclude = canBePlaced d' tile st label exclude
    ∧ (st.placed label.id = none →
        (canBePlaced d tile st label exclude).1
          = !RepeatGroup.check label label.layout tile st.rep) := by
  constructor
  · unfold canBePlaced
    cases hp : st.placed label.id <;> simp [h]
  · intro hp
    unfold canBePlaced
    rw [hp]
    simp only [h, Bool.not_false, Bool.true_or, if_true]
    cases hc : RepeatGroup.check label label.layout tile st.rep <;> simp

def c6label : Label := ⟨0, ⟨1, false, "g", 400, false⟩, (0, 0)⟩

def c6st : ResState := ⟨[], [], fun _ => none, fun _ _ => []⟩

/-- Witness for C6 at a concrete input: two opposite discard oracles
give the same answer for a collide = false label, and the label passes
since its repeat bucket is empty. -/
theorem collision_c6_witness :
    canBePlaced (fun _ _ _ => true) "T" c6st c6label none
      = canBePlaced (fun _ _ _ => false) "T" c6st c6label none
    ∧ (c6st.placed c6label.id = none →
        (canBePlaced (fun _ _ _ => true) "T" c6st c6label none).1
          = !RepeatGroup.check c6label c6label.layout "T" c6st.rep) :=
  collision_c6_no_overlap_test_when_collide_false (fun _ _ _ => true) (fun _ _ _ => false)
    "T" c6st c6label none (by decide)

def c9s1 : Sys :=
  match addStyle (startTile initSys "T") "A" "T" with
  | .ok s => s
  | .error _ => initSys

/-- C9 counterexample: the claim says a second startTile call for a tile
that already has state leaves the existing state and its completion
signal in place. It does not: after startTile plus addStyle "A", the
registered state has styles ["A"], but a second startTile replaces it
with a fresh empty state (the fresh-object assignment makes the source's
`if (state.complete == null)` guard always true). -/
theorem collision_c9_counterexample :
    registeredState c9s1 "T" = some { freshTileState with styles := ["A"] }
    ∧ registeredState (startTile c9s1 "T") "T" = some freshTileState
    ∧ registeredState (startTile c9s1 "T") "T" ≠ registeredState c9s1 "T" :=
  ⟨by decide, by decide, by decide⟩

/-- C9 (amended): startTile is not idempotent: for every tile id it
unconditionally creates a fresh TileCollisionState with a fresh
completion signal and points the registry at it (at a fresh heap
position), replacing any existing registration; the previously created
states themselves are left intact (so waiters closed over them keep
their state) but are no longer registered. -/
theorem collision_c9_startTile_always_fresh (s : Sys) (tile : String) :
    registeredState (startTile s tile) tile = some freshTileState
    ∧ lookupTile (startTile s tile).tiles tile = some s.heap.length
    ∧ ∀ idx, idx < s.heap.length → heapGet (startTile s tile).heap idx = heapGet s.heap idx := by
  refine ⟨registeredState_startTile s tile, lookupTile_setTile _ _ _, ?_⟩
  intro idx h
  exact heapGet_append_lt s.heap freshTileState idx h

/-- Witness for C9 at a concrete input: a second startTile registers a
fresh state and leaves the first created state intact in the heap. -/
theorem collision_c9_witness :
    registeredState (startTile (startTile initSys "T") "T") "T" = some freshTileState
    ∧ heapGet (startTile (startTile initSys "T") "T").heap 0
        = heapGet (startTile initSys "T").heap 0 := by
  have h := collision_c9_startTile_always_fresh (startTile initSys "T") "T"
  exact ⟨h.1, h.2.2 0 (by decide)⟩

/-- C10: addStyle has no missing-tile guard: for a tile id with no
active state it throws (a property access on undefined), while collide
on the same missing tile returns gracefully; with a registered state
addStyle succeeds and records the style. -/
theorem collision_c10_addStyle_no_guard (s : Sys) (style tile : String) :
    (lookupTile s.tiles tile = none →
      addStyle s style tile = .error .undefinedAccess
      ∧ ∀ d objs, collide d s objs style tile = .ok ⟨s, .immediate [], ["trace"]⟩)
    ∧ (∀ idx ts, lookupTile s.tiles tile = some idx → heapGet s.heap idx = some ts →
        addStyle s style tile
          = .ok { s with
              heap := s.heap.set idx { ts with styles := addStyleName ts.styles style } }) := by
  constructor
  · intro h
    constructor
    · unfold addStyle
      rw [h]
    · intro d objs
      unfold collide
      rw [h]
  · intro idx ts hl hh
    simp [addStyle, hl, hh]

/-- Witness for C10 at a concrete input: on the empty system addStyle
for tile T throws while collide returns ok; after startTile, addStyle
succeeds. -/
theorem collision_c10_witness :
    (addStyle initSys "roads" "T" = .error .undefinedAccess
      ∧ collide (fun _ _ _ => false) initSys [] "roads" "T"
          = .ok ⟨initSys, .immediate [], ["trace"]⟩)
    ∧ exOk (addStyle (startTile initSys "T") "roads" "T") = true := by
  have h1 := (collision_c10_addStyle_no_guard initSys "roads" "T").1 rfl
  have h2 := (collision_c10_addStyle_no_guard (startTile initSys "T") "roads" "T").2 0
    freshTileState (by decide) (by decide)
  exact ⟨⟨h1.1, h1.2 (fun _ _ _ => false) []⟩, by rw [h2]; rfl⟩

/-- C7: a tile's state is registered from startTile until endTile or
abortTile: startTile registers a state; abortTile deregisters it; a
collide call that empties the awaiting-style set (and hence runs
endTile) deregisters it, while a collide call that leaves styles
awaiting keeps the registration unchanged; addStyle never changes the
registration. -/
theorem collision_c7_state_lifetime (d : Discard) (s : Sys) (tile style : String)
    (objs : List CObj) :
    (registeredState (startTile s tile) tile).isSome = true
    ∧ lookupTile (abortTile s tile).tiles tile = none
    ∧ (∀ idx ts, lookupTile s.tiles tile = some idx → heapGet s.heap idx = some ts →
        (eraseStyle ts.styles style = [] →
          lookupTile (sysAfterCollide d s objs style tile).tiles tile = none)
        ∧ (eraseStyle ts.styles style ≠ [] →
          lookupTile (sysAfterCollide d s objs style tile).tiles tile
            = lookupTile s.tiles tile))
    ∧ (∀ s', addStyle s style tile = .ok s' →
        lookupTile s'.tiles tile = lookupTile s.tiles tile) := by
  refine ⟨?_, ?_, ?_, ?_⟩
  · rw [registeredState_startTile]
    rfl
  · unfold abortTile
    cases hl : lookupTile s.tiles tile
    · exact lookupTile_eraseTile s.tiles tile
    · exact lookupTile_eraseTile s.tiles tile
  · intro idx ts hl hh
    constructor
    · intro hempty
      simp [sysAfterCollide, collide, hl, hh, hempty, lookupTile_eraseTile]
    · intro hne
      simp [sysAfterCollide, collide, hl, hh, hne]
  · intro s' h
    cases hl : lookupTile s.tiles tile with
    | none =>
      simp [addStyle, hl] at h
    | some idx =>
      cases hh : heapGet s.heap idx with
      | none =>
        simp [addStyle, hl, hh] at h
      | some ts2 =>
        simp [addStyle, hl, hh] at h
        subst h
        exact hl

def c7sys : Sys := ⟨[⟨[], [], [], ["A", "B"], false⟩], [("T", 0)], fun _ _ => [], fun _ => none⟩

def c7sysB : Sys := ⟨[⟨[], [], [], ["A"], false⟩], [("T", 0)], fun _ _ => [], fun _ => none⟩

/-- Witness for C7 at concrete inputs: a collide that still leaves style
B awaiting keeps tile T registered; a collide that empties the awaiting
set removes it; startTile registers; abortTile removes. -/
theorem collision_c7_witness :
    lookupTile (sysAfterCollide (fun _ _ _ => false) c7sys [] "A" "T").tiles "T"
      = lookupTile c7sys.tiles "T"
    ∧ lookupTile (sysAfterCollide (fun _ _ _ => false) c7sysB [] "A" "T").tiles "T" = none
    ∧ (registeredState (startTile initSys "T") "T").isSome = true
    ∧ lookupTile (abortTile c7sys "T").tiles "T" = none := by
  have h1 := (collision_c7_state_lifetime (fun _ _ _ => false) c7sys "T" "A" []).2.2.1 0
    ⟨[], [], [], ["A", "B"], false⟩ (by decide) (by decide)
  have h2 := (collision_c7_state_lifetime (fun _ _ _ => false) c7sysB "T" "A" []).2.2.1 0
    ⟨[], [], [], ["A"], false⟩ (by decide) (by decide)
  have h3 := collision_c7_state_lifetime (fun _ _ _ => false) initSys "T" "A" []
  have h4 := collision_c7_state_lifetime (fun _ _ _ => false) c7sys "T" "A" []
  exact ⟨h1.2 (by decide), h2.1 (by decide), h3.1, h4.2.1⟩

theorem abortTile_missing (s : Sys) (tile : String)
    (h : lookupTile s.tiles tile = none) : abortTile s tile = resetTile s tile := by
  unfold abortTile
  rw [h]

/-- C4: abortTile fulfills the tile's completion signal with an empty
result: a collide call suspended on the registered state of the tile
(suspended because the signal is still pending; in any reachable system
an unresolved state has an untouched empty keep, taken here as the
invariant hypothesis) resolves after the abort to the empty sequence;
the registration is removed, so a second abortTile on the same tile id
finds nothing, changes nothing and does not throw (every access in
abortTile is guarded), and aborting a tile that was never started just
clears the (absent) registration. -/
theorem collision_c4_abort_unblocks_waiters (s : Sys) (tile : String) (idx : Nat)
    (ts : TileState)
    (hinv : ∀ ts' ∈ s.heap, ts'.resolved = false → ts'.keep = [])
    (hl : lookupTile s.tiles tile = some idx)
    (hh : heapGet s.heap idx = some ts) (hr : ts.resolved = false) :
    (∀ style, waiterResult s idx style = none)
    ∧ (∀ style, waiterResult (abortTile s tile) idx style = some [])
    ∧ lookupTile (abortTile s tile).tiles tile = none
    ∧ abortTile (abortTile s tile) tile = abortTile s tile
    ∧ ∀ (s2 : Sys) (t2 : String), lookupTile s2.tiles t2 = none →
        abortTile s2 t2 = resetTile s2 t2 := by
  have hts : abortTile s tile = resetTile { s with heap := resolveAt s.heap idx } tile := by
    unfold abortTile
    rw [hl]
  have hkeep : ts.keep = [] := hinv ts (heapGet_mem s.heap idx ts hh) hr
  have hlt : idx < s.heap.length := heapGet_lt_length s.heap idx ts hh
  have hheap : resolveAt s.heap idx = s.heap.set idx { ts with resolved := true } := by
    unfold resolveAt
    rw [hh]
  refine ⟨?_, ?_, ?_, ?_, ?_⟩
  · intro style
    simp [waiterResult, hh, hr]
  · intro style
    rw [hts]
    simp [waiterResult, resetTile, hheap, heapGet_set_self s.heap idx _ hlt, hkeep,
      keepLookup]
  · rw [hts]
    exact lookupTile_eraseTile s.tiles tile
  · have h3 : lookupTile (abortTile s tile).tiles tile = none := by
      rw [hts]
      exact lookupTile_eraseTile s.tiles tile
    have ht : (abortTile s tile).tiles = eraseTile s.tiles tile := by
      rw [hts]
      rfl
    rw [abortTile_missing (abortTile s tile) tile h3]
    unfold resetTile
    rw [ht, eraseTile_idem, ← ht]
  · intro s2 t2 h2
    exact abortTile_missing s2 t2 h2

def c4sys : Sys := startTile initSys "T"

/-- Witness for C4 at a concrete input: start tile T (no style ever
submits), abort it; a waiter on its state resolves to the empty
sequence, and a second abort is a no-op. -/
theorem collision_c4_witness :
    waiterResult c4sys 0 "roads" = none
    ∧ waiterResult (abortTile c4sys "T") 0 "roads" = some []
    ∧ lookupTile (abortTile c4sys "T").tiles "T" = none
    ∧ abortTile (abortTile c4sys "T") "T" = abortTile c4sys "T" := by
  have h := collision_c4_abort_unblocks_waiters c4sys "T" 0 freshTileState
    (by
      intro ts hts hr
      simp [c4sys, startTile, initSys] at hts
      rw [hts]
      rfl)
    (by decide) (by decide) rfl
  exact ⟨h.1 "roads", h.2.1 "roads", h.2.2.1, h.2.2.2.1⟩

theorem canBePlaced_spec (d : Discard) (tile : String) (st : ResState)
    (label : Label) (ex : Option Label) :
    (canBePlaced d tile st label ex = (true, st.placed)
      ∧ (st.placed label.id = none ∨ st.placed label.id = some true))
    ∨ ((canBePlaced d tile st label ex).1 = false
      ∧ (canBePlaced d tile st label ex).2 label.id = some false
      ∧ ∀ x, x ≠ label.id → (canBePlaced d tile st label ex).2 x = st.placed x) := by
  unfold canBePlaced
  cases hp : st.placed label.id with
  | some b =>
    cases b with
    | true => exact Or.inl ⟨rfl, Or.inr rfl⟩
    | false => exact Or.inr ⟨rfl, hp, fun x _ => rfl⟩
  | none =>
    by_cases h1 : (!label.layout.collide || !(d label st.bboxes ex)) = true
    · rw [if_pos h1]
      by_cases h2 : RepeatGroup.check label label.layout tile st.rep = true
      · rw [if_pos h2]
        refine Or.inr ⟨rfl, ?_, ?_⟩
        · simp [setPlaced]
        · intro x hx
          simp [setPlaced, hx]
      · rw [if_neg h2]
        exact Or.inl ⟨rfl, Or.inl rfl⟩
    · rw [if_neg h1]
      refine Or.inr ⟨rfl, ?_, ?_⟩
      · simp [setPlaced]
      · intro x hx
        simp [setPlaced, hx]

theorem place_keep (tile : String) (st : ResState) (label : Label) :
    (place tile st label).keep = st.keep := by
  unfold place
  cases st.placed label.id <;> rfl

theorem place_bboxes_superset (tile : String) (st : ResState) (label : Label) :
    (place tile st label).bboxes = st.bboxes
    ∨ (place tile st label).bboxes = st.bboxes ++ [label] := by
  unfold place
  cases st.placed label.id
  · exact Or.inr rfl
  · exact Or.inl rfl

theorem place_placed_none (tile : String) (st : ResState) (label : Label)
    (h : st.placed label.id = none) :
    (place tile st label).placed label.id = some true := by
  unfold place
  rw [h]
  simp [setPlaced]

theorem place_placed_some (tile : String) (st : ResState) (label : Label) (b : Bool)
    (h : st.placed label.id = some b) :
    (place tile st label).placed = st.placed := by
  unfold place
  rw [h]

theorem place_frame (tile : String) (st : ResState) (label : Label) (x : Nat)
    (hx : x ≠ label.id) : (place tile st label).placed x = st.placed x := by
  unfold place
  cases st.placed label.id
  · simp [setPlaced, hx]
  · rfl

theorem keepLookup_pushKeep_self (k : List (String × List CObj)) (style : String)
    (o : CObj) :
    keepLookup (pushKeep k style o) style = keepLookup k style ++ [o] := by
  induction k with
  | nil => simp [pushKeep, keepLookup]
  | cons e rest ih =>
    obtain ⟨s, lst⟩ := e
    by_cases hs : s = style
    · simp [pushKeep, keepLookup, hs]
    · simp [pushKeep, keepLookup, hs, ih]

/-- C2 (amended): a linked pair is atomic for acceptance: the candidate
is kept and both labels placed only when the candidate passes
canBePlaced (with the linked object as exclusion) and the linked object
also passes canBePlaced (with the candidate as exclusion); if the linked
object fails, both are rejected (nothing kept, nothing placed) and the
linked object's label is decided (placed = false), but the candidate's
own label's placed field is left unchanged (still undecided if it was),
so the candidate's label can be re-evaluated on a later visit. -/
theorem collision_c2_linked_pair_atomic (d : Discard) (tile style : String)
    (st : ResState) (obj : CObj) (l : Label)
    (hl : obj.linked = some l) (hid : obj.label.id ≠ l.id) :
    ((canBePlaced d tile st obj.label (some l)).1 = true →
      (canBePlaced d tile st l (some obj.label)).1 = true →
        keepLookup (processObject d tile style st obj).keep style
            = keepLookup st.keep style ++ [obj]
        ∧ (processObject d tile style st obj).placed obj.label.id = some true
        ∧ (processObject d tile style st obj).placed l.id = some true)
    ∧ ((canBePlaced d tile st obj.label (some l)).1 = true →
      (canBePlaced d tile st l (some obj.label)).1 = false →
        (processObject d tile style st obj).keep = st.keep
        ∧ (processObject d tile style st obj).bboxes = st.bboxes
        ∧ (processObject d tile style st obj).placed l.id = some false
        ∧ (processObject d tile style st obj).placed obj.label.id
            = st.placed obj.label.id)
    ∧ ((canBePlaced d tile st obj.label (some l)).1 = false →
        (processObject d tile style st obj).keep = st.keep
        ∧ (processObject d tile style st obj).bboxes = st.bboxes) := by
  obtain ⟨oid, olabel, olinked⟩ := obj
  have hl' : olinked = some l := hl
  subst hl'
  dsimp only at hid ⊢
  refine ⟨?_, ?_, ?_⟩
  · intro h1 h2
    rcases canBePlaced_spec d tile st olabel (some l) with ⟨hpair1, hprior1⟩ | ⟨hf1, _, _⟩
    · rcases canBePlaced_spec d tile st l (some olabel) with ⟨hpair2, hprior2⟩ | ⟨hf2, _, _⟩
      · have hres : processObject d tile style st ⟨oid, olabel, some l⟩
            = place tile
                (place tile
                  { st with keep := pushKeep st.keep style ⟨oid, olabel, some l⟩ } olabel) l := by
          simp only [processObject]
          rw [hpair1]
          have hst1 : ({ st with placed := ((true, st.placed) : Bool × PlacedStore).2 }
              : ResState) = st := rfl
          rw [hst1, hpair2]
          simp
        rw [hres]
        have hkA : ({ st with keep := pushKeep st.keep style ⟨oid, olabel, some l⟩ }
            : ResState).placed = st.placed := rfl
        refine ⟨?_, ?_, ?_⟩
        · rw [place_keep, place_keep]
          exact keepLookup_pushKeep_self st.keep style _
        · rw [place_frame tile _ l olabel.id hid]
          rcases hprior1 with hp | hp
          · exact place_placed_none tile _ olabel (by rw [hkA]; exact hp)
          · rw [place_placed_some tile _ olabel true (by rw [hkA]; exact hp), hkA]
            exact hp
        · have hinner : (place tile
              { st with keep := pushKeep st.keep style ⟨oid, olabel, some l⟩ }
              olabel).placed l.id = st.placed l.id := by
            rw [place_frame tile _ olabel l.id (Ne.symm hid), hkA]
          rcases hprior2 with hp | hp
          · exact place_placed_none tile _ l (by rw [hinner]; exact hp)
          · rw [place_placed_some tile _ l true (by rw [hinner]; exact hp), hinner]
            exact hp
      · rw [hf2] at h2
        cases h2
    · rw [hf1] at h1
      cases h1
  · intro h1 h2
    rcases canBePlaced_spec d tile st olabel (some l) with ⟨hpair1, hprior1⟩ | ⟨hf1, _, _⟩
    · rcases canBePlaced_spec d tile st l (some olabel) with ⟨hpair2, hprior2⟩ | ⟨hf2, hdec2, hfr2⟩
      · rw [hpair2] at h2
        cases h2
      · have hres : processObject d tile style st ⟨oid, olabel, some l⟩
            = { st with placed := (canBePlaced d tile st l (some olabel)).2 } := by
          simp only [processObject]
          rw [hpair1]
          have hst1 : ({ st with placed := ((true, st.placed) : Bool × PlacedStore).2 }
              : ResState) = st := rfl
          rw [hst1]
          simp [h2]
        rw [hres]
        exact ⟨rfl, rfl, hdec2, hfr2 olabel.id hid⟩
    · rw [hf1] at h1
      cases h1
  · intro h1
    rcases canBePlaced_spec d tile st olabel (some l) with ⟨hpair1, _⟩ | ⟨hf1, _, _⟩
    · rw [hpair1] at h1
      cases h1
    · have hres : processObject d tile style st ⟨oid, olabel, some l⟩
          = { st with placed := (canBePlaced d tile st olabel (some l)).2 } := by
        simp only [processObject]
        simp [h1]
      rw [hres]
      exact ⟨rfl, rfl⟩

def c2labelA : Label := ⟨0, ⟨0, true, "g", 0, false⟩, (0, 0)⟩

def c2labelB : Label := ⟨1, ⟨0, true, "g", 0, false⟩, (0, 0)⟩

def c2obj : CObj := ⟨0, c2labelA, some c2labelB⟩

def c2d : Discard := fun lbl _ _ => lbl.id == 1

def c2dpass : Discard := fun _ _ _ => false

def c2st : ResState := ⟨[], [], fun _ => none, fun _ _ => []⟩

/-- C2 counterexample: the claim as stated says that when the linked
object fails canBePlaced, both labels' placed fields are left decided
(false). On the code a candidate (label id 0) that passes while its
linked object (label id 1) overlaps is indeed rejected together with the
link, and the linked label is decided false, but the candidate's own
placed field remains null (undecided), not false. -/
theorem collision_c2_counterexample :
    (canBePlaced c2d "T" c2st c2labelA (some c2labelB)).1 = true
    ∧ (canBePlaced c2d "T" c2st c2labelB (some c2labelA)).1 = false
    ∧ keepLookup (processObject c2d "T" "S" c2st c2obj).keep "S" = []
    ∧ (processObject c2d "T" "S" c2st c2obj).placed 1 = some false
    ∧ (processObject c2d "T" "S" c2st c2obj).placed 0 = none
    ∧ ¬(processObject c2d "T" "S" c2st c2obj).placed 0 = some false :=
  ⟨by decide, by decide, by decide, by decide, by decide, by decide⟩

/-- Witness for C2 at concrete inputs: with a discard oracle rejecting
nothing the pair is accepted and both labels placed; with the oracle
rejecting the linked label the pair is rejected, the linked label is
decided false, and the candidate's placed is untouched. -/
theorem collision_c2_witness :
    (keepLookup (processObject c2dpass "T" "S" c2st c2obj).keep "S"
        = keepLookup c2st.keep "S" ++ [c2obj]
      ∧ (processObject c2dpass "T" "S" c2st c2obj).placed c2obj.label.id = some true
      ∧ (processObject c2dpass "T" "S" c2st c2obj).placed c2labelB.id = some true)
    ∧ ((processObject c2d "T" "S" c2st c2obj).keep = c2st.keep
      ∧ (processObject c2d "T" "S" c2st c2obj).bboxes = c2st.bboxes
      ∧ (processObject c2d "T" "S" c2st c2obj).placed c2labelB.id = some false
      ∧ (processObject c2d "T" "S" c2st c2obj).placed c2obj.label.id
          = c2st.placed c2obj.label.id) :=
  ⟨(collision_c2_linked_pair_atomic c2dpass "T" "S" c2st c2obj c2labelB rfl
      (by decide)).1 (by decide) (by decide),
   (collision_c2_linked_pair_atomic c2d "T" "S" c2st c2obj c2labelB rfl
      (by decide)).2.1 (by decide) (by decide)⟩

/-- One priority group's contribution to the traversal order of endTile:
for each style entry in insertion order, that style's objects in
submission order, each paired with the group's priority. -/
def styleOrder (p : Int) (g : List (String × List CObj)) : List (Int × CObj) :=
  g.foldr (fun e acc => e.2.map (fun o => (p, o)) ++ acc) []

def flattenGroups (groups : List (Int × List (String × List CObj))) : List (Int × CObj) :=
  groups.foldr (fun pg acc => styleOrder pg.1 pg.2 ++ acc) []

/-- The order in which the resolution pass of endTile visits (tests and,
if placeable, accepts) the pending candidates: priority groups in
ascending numeric order, within a group styles in insertion order, then
submission order; each entry paired with its priority. -/
def resolutionOrder (objects : List (Int × List (String × List CObj))) : List (Int × CObj) :=
  flattenGroups (sortByPriority objects)

theorem mem_insertSorted (x y : Int × List (String × List CObj))
    (l : List (Int × List (String × List CObj))) :
    y ∈ insertSorted x l ↔ y = x ∨ y ∈ l := by
  induction l with
  | nil => simp [insertSorted]
  | cons a rest ih =>
    by_cases h : x.1 ≤ a.1
    · simp [insertSorted, h]
    · simp only [insertSorted, if_neg h, List.mem_cons, ih]
      tauto

theorem pairwise_insertSorted (x : Int × List (String × List CObj))
    (l : List (Int × List (String × List CObj)))
    (h : l.Pairwise (fun a b => a.1 ≤ b.1)) :
    (insertSorted x l).Pairwise (fun a b => a.1 ≤ b.1) := by
  induction l with
  | nil => simp [insertSorted]
  | cons a rest ih =>
    rcases List.pairwise_cons.mp h with ⟨ha, hrest⟩
    by_cases hle : x.1 ≤ a.1
    · rw [insertSorted, if_pos hle]
      refine List.pairwise_cons.mpr ⟨?_, h⟩
      intro b hb
      rcases List.mem_cons.mp hb with rfl | hb
      · exact hle
      · exact le_trans hle (ha b hb)
    · rw [insertSorted, if_neg hle]
      refine List.pairwise_cons.mpr ⟨?_, ih hrest⟩
      intro b hb
      rcases (mem_insertSorted x b rest).mp hb with rfl | hb
      · exact le_of_not_le hle
      · exact ha b hb

theorem pairwise_sortByPriority (l : List (Int × List (String × List CObj))) :
    (sortByPriority l).Pairwise (fun a b => a.1 ≤ b.1) := by
  induction l with
  | nil => simp [sortByPriority]
  | cons a rest ih => exact pairwise_insertSorted a _ ih

theorem perm_insertSorted (x : Int × List (String × List CObj))
    (l : List (Int × List (String × List CObj))) :
    List.Perm (insertSorted x l) (x :: l) := by
  induction l with
  | nil => exact List.Perm.refl _
  | cons a rest ih =>
    by_cases h : x.1 ≤ a.1
    · rw [insertSorted, if_pos h]
    · rw [insertSorted, if_neg h]
      exact List.Perm.trans (List.Perm.cons a ih) (List.Perm.swap x a rest)

theorem perm_sortByPriority (l : List (Int × List (String × List CObj))) :
    List.Perm (sortByPriority l) l := by
  induction l with
  | nil => exact List.Perm.refl _
  | cons a rest ih => exact List.Perm.trans (perm_insertSorted a _) (List.Perm.cons a ih)

theorem fst_of_mem_styleOrder (p : Int) (g : List (String × List CObj)) (x : Int × CObj)
    (h : x ∈ styleOrder p g) : x.1 = p := by
  induction g with
  | nil => simp [styleOrder] at h
  | cons e rest ih =>
    simp only [styleOrder, List.foldr_cons] at h
    rcases List.mem_append.mp h with h | h
    · rcases List.mem_map.mp h with ⟨o, _, rfl⟩
      rfl
    · exact ih h

theorem fst_of_mem_flattenGroups (gs : List (Int × List (String × List CObj)))
    (x : Int × CObj) (h : x ∈ flattenGroups gs) : ∃ pg ∈ gs, x.1 = pg.1 := by
  induction gs with
  | nil => simp [flattenGroups] at h
  | cons pg rest ih =>
    simp only [flattenGroups, List.foldr_cons] at h
    rcases List.mem_append.mp h with h | h
    · exact ⟨pg, List.mem_cons_self pg rest, fst_of_mem_styleOrder pg.1 pg.2 x h⟩
    · rcases ih h with ⟨qg, hq, hx⟩
      exact ⟨qg, List.mem_cons_of_mem pg hq, hx⟩

theorem pairwise_styleOrder (p : Int) (g : List (String × List CObj)) :
    (styleOrder p g).Pairwise (fun a b => a.1 ≤ b.1) := by
  apply List.pairwise_of_forall_mem_list
  intro a ha b hb
  rw [fst_of_mem_styleOrder p g a ha, fst_of_mem_styleOrder p g b hb]

theorem pairwise_flattenGroups (gs : List (Int × List (String × List CObj)))
    (h : gs.Pairwise (fun a b => a.1 ≤ b.1)) :
    (flattenGroups gs).Pairwise (fun a b => a.1 ≤ b.1) := by
  induction gs with
  | nil => simp [flattenGroups]
  | cons pg rest ih =>
    rcases List.pairwise_cons.mp h with ⟨hpg, hrest⟩
    show (styleOrder pg.1 pg.2 ++ flattenGroups rest).Pairwise _
    rw [List.pairwise_append]
    refine ⟨pairwise_styleOrder pg.1 pg.2, ih hrest, ?_⟩
    intro a ha b hb
    rcases fst_of_mem_flattenGroups rest b hb with ⟨qg, hq, hbq⟩
    rw [fst_of_mem_styleOrder pg.1 pg.2 a ha, hbq]
    exact hpg qg hq

/-- C3: endTile visits the pending objects along resolutionOrder, whose
priorities are nondecreasing (the priority groups are enumerated in
ascending numeric order and are a permutation of the pending groups), so
an entry with a strictly smaller priority value is always visited -
tested and, if placeable, accepted - strictly before any entry with a
larger priority value. -/
theorem collision_c3_priority_order (objects : List (Int × List (String × List CObj))) :
    (resolutionOrder objects).Pairwise (fun a b => a.1 ≤ b.1)
    ∧ (sortByPriority objects).Perm objects
    ∧ ∀ (i j : Nat) (hi : i < (resolutionOrder objects).length)
        (hj : j < (resolutionOrder objects).length),
        ((resolutionOrder objects).get ⟨i, hi⟩).1
            < ((resolutionOrder objects).get ⟨j, hj⟩).1 → i < j := by
  have hpw : (resolutionOrder objects).Pairwise (fun a b => a.1 ≤ b.1) :=
    pairwise_flattenGroups _ (pairwise_sortByPriority objects)
  refine ⟨hpw, perm_sortByPriority objects, ?_⟩
  intro i j hi hj hlt
  by_contra hij
  push_neg at hij
  rcases lt_or_eq_of_le hij with hji | heq
  · have := List.pairwise_iff_get.mp hpw ⟨j, hj⟩ ⟨i, hi⟩ hji
    exact absurd hlt (not_lt_of_le this)
  · subst heq
    exact lt_irrefl _ hlt

def c3objW : List (Int × List (String × List CObj)) :=
  [(5, [("pois", [⟨0, ⟨0, ⟨5, true, "g", 0, false⟩, (0, 0)⟩, none⟩])]),
   (3, [("roads", [⟨1, ⟨1, ⟨3, true, "g", 0, false⟩, (0, 0)⟩, none⟩])])]

/-- Witness for C3 at a concrete input: with pending groups at
priorities 5 and 3 (submitted in that order), the priority-3 entry
precedes the priority-5 entry in the resolution order, and the order's
priorities are nondecreasing. -/
theorem collision_c3_witness :
    (0 : Nat) < 1
    ∧ (resolutionOrder c3objW).Pairwise (fun a b => a.1 ≤ b.1) :=
  ⟨(collision_c3_priority_order c3objW).2.2 0 1 (by decide) (by decide) (by decide),
   (collision_c3_priority_order c3objW).1⟩

/-- The objects a style contributed at one priority group of the
pending-objects table. -/
def entrySubs (g : List (String × List CObj)) (s' : String) : List CObj :=
  match g with
  | [] => []
  | (s, l) :: rest => (if s = s' then l else []) ++ entrySubs rest s'

/-- All objects a style contributed across the priority groups of the
pending-objects table: exactly what reached the table through that
style's collide call. -/
def subsOf (groups : List (Int × List (String × List CObj))) (s' : String) : List CObj :=
  match groups with
  | [] => []
  | (_, g) :: rest => entrySubs g s' ++ subsOf rest s'

theorem mem_keepLookup_pushKeep (k : List (String × List CObj)) (style : String)
    (o : CObj) (s' : String) (o' : CObj)
    (h : o' ∈ keepLookup (pushKeep k style o) s') :
    o' ∈ keepLookup k s' ∨ (s' = style ∧ o' = o) := by
  induction k with
  | nil =>
    by_cases hs : style = s'
    · simp [pushKeep, keepLookup, hs] at h
      exact Or.inr ⟨hs.symm, h⟩
    · simp [pushKeep, keepLookup, hs] at h
  | cons e rest ih =>
    obtain ⟨s, lst⟩ := e
    by_cases hs : s = style
    · by_cases hss : s = s'
      · simp only [pushKeep, if_pos hs, keepLookup, if_pos hss, List.mem_append] at h
        simp only [keepLookup, if_pos hss]
        rcases h with h | h
        · exact Or.inl h
        · simp at h
          exact Or.inr ⟨hss.symm.trans hs, h⟩
      · simp only [pushKeep, if_pos hs, keepLookup, if_neg hss] at h
        simp only [keepLookup, if_neg hss]
        exact Or.inl h
    · by_cases hss : s = s'
      · simp only [pushKeep, if_neg hs, keepLookup, if_pos hss] at h
        simp only [keepLookup, if_pos hss]
        exact Or.inl h
      · simp only [pushKeep, if_neg hs, keepLookup, if_neg hss] at h
        simp only [keepLookup, if_neg hss]
        exact ih h

theorem keepLookup_append_empty (k : List (String × List CObj)) (style s' : String) :
    keepLookup (k ++ [(style, [])]) s' = keepLookup k s' := by
  induction k with
  | nil =>
    by_cases hs : style = s' <;> simp [keepLookup, hs]
  | cons e rest ih =>
    obtain ⟨s, lst⟩ := e
    by_cases hss : s = s' <;> simp [keepLookup, hss, ih]

theorem keepLookup_ensureKeep (style : String) (k : List (String × List CObj))
    (s' : String) : keepLookup (ensureKeep style k) s' = keepLookup k s' := by
  unfold ensureKeep
  by_cases h : k.any (fun e => e.1 = style)
  · rw [if_pos h]
  · rw [if_neg h]
    exact keepLookup_append_empty k style s'

theorem mem_keep_processObject (d : Discard) (tile style : String) (st : ResState)
    (obj : CObj) (s' : String) (o' : CObj)
    (h : o' ∈ keepLookup (processObject d tile style st obj).keep s') :
    o' ∈ keepLookup st.keep s' ∨ (s' = style ∧ o' = obj) := by
  simp only [processObject] at h
  split at h
  · split at h
    · rw [place_keep] at h
      exact mem_keepLookup_pushKeep st.keep style obj s' o' h
    · split at h
      · rw [place_keep, place_keep] at h
        exact mem_keepLookup_pushKeep st.keep style obj s' o' h
      · exact Or.inl h
  · exact Or.inl h

theorem mem_keep_foldl_objects (d : Discard) (tile style : String) (objs : List CObj)
    (st : ResState) (s' : String) (o' : CObj)
    (h : o' ∈ keepLookup (objs.foldl (processObject d tile style) st).keep s') :
    o' ∈ keepLookup st.keep s' ∨ (s' = style ∧ o' ∈ objs) := by
  induction objs generalizing st with
  | nil => exact Or.inl h
  | cons a rest ih =>
    rcases ih (processObject d tile style st a) h with h1 | ⟨hs, ho⟩
    · rcases mem_keep_processObject d tile style st a s' o' h1 with h2 | ⟨hs, ho⟩
      · exact Or.inl h2
      · exact Or.inr ⟨hs, by simp [ho]⟩
    · exact Or.inr ⟨hs, List.mem_cons_of_mem a ho⟩

theorem mem_keep_processStyle (d : Discard) (tile : String) (st : ResState)
    (e : String × List CObj) (s' : String) (o' : CObj)
    (h : o' ∈ keepLookup (processStyle d tile st e).keep s') :
    o' ∈ keepLookup st.keep s' ∨ (s' = e.1 ∧ o' ∈ e.2) := by
  unfold processStyle at h
  rcases mem_keep_foldl_objects d tile e.1 e.2 _ s' o' h with h1 | h1
  · left
    have h1' : o' ∈ keepLookup (ensureKeep e.1 st.keep) s' := h1
    rw [keepLookup_ensureKeep] at h1'
    exact h1'
  · exact Or.inr h1

theorem mem_keep_foldl_styles (d : Discard) (tile : String)
    (g : List (String × List CObj)) (st : ResState) (s' : String) (o' : CObj)
    (h : o' ∈ keepLookup (g.foldl (processStyle d tile) st).keep s') :
    o' ∈ keepLookup st.keep s' ∨ o' ∈ entrySubs g s' := by
  induction g generalizing st with
  | nil => exact Or.inl h
  | cons e rest ih =>
    rcases ih (processStyle d tile st e) h with h1 | h1
    · rcases mem_keep_processStyle d tile st e s' o' h1 with h2 | ⟨hs, ho⟩
      · exact Or.inl h2
      · right
        show o' ∈ (if e.1 = s' then e.2 else []) ++ entrySubs rest s'
        rw [if_pos hs.symm]
        exact List.mem_append.mpr (Or.inl ho)
    · right
      show o' ∈ (if e.1 = s' then e.2 else []) ++ entrySubs rest s'
      exact List.mem_append.mpr (Or.inr h1)

theorem mem_keep_processPriority (d : Discard) (tile : String) (st : ResState)
    (pg : Int × List (String × List CObj)) (s' : String) (o' : CObj)
    (h : o' ∈ keepLookup (processPriority d tile st pg).keep s') :
    o' ∈ keepLookup st.keep s' ∨ o' ∈ entrySubs pg.2 s' := by
  unfold processPriority at h
  exact mem_keep_foldl_styles d tile pg.2 st s' o' h

theorem mem_keep_foldl_priorities (d : Discard) (tile : String)
    (gs : List (Int × List (String × List CObj))) (st : ResState) (s' : String)
    (o' : CObj)
    (h : o' ∈ keepLookup (gs.foldl (processPriority d tile) st).keep s') :
    o' ∈ keepLookup st.keep s' ∨ o' ∈ subsOf gs s' := by
  induction gs generalizing st with
  | nil => exact Or.inl h
  | cons pg rest ih =>
    rcases ih (processPriority d tile st pg) h with h1 | h1
    · rcases mem_keep_processPriority d tile st pg s' o' h1 with h2 | h2
      · exact Or.inl h2
      · right
        show o' ∈ entrySubs pg.2 s' ++ subsOf rest s'
        exact List.mem_append.mpr (Or.inl h2)
    · right
      show o' ∈ entrySubs pg.2 s' ++ subsOf rest s'
      exact List.mem_append.mpr (Or.inr h1)

theorem mem_subsOf_iff (gs : List (Int × List (String × List CObj))) (s' : String)
    (o' : CObj) :
    o' ∈ subsOf gs s' ↔ ∃ pg ∈ gs, o' ∈ entrySubs pg.2 s' := by
  induction gs with
  | nil => simp [subsOf]
  | cons pg rest ih =>
    show o' ∈ entrySubs pg.2 s' ++ subsOf rest s' ↔ _
    rw [List.mem_append, ih]
    constructor
    · rintro (h | ⟨qg, hq, hqs⟩)
      · exact ⟨pg, List.mem_cons_self pg rest, h⟩
      · exact ⟨qg, List.mem_cons_of_mem pg hq, hqs⟩
    · rintro ⟨qg, hq, hqs⟩
      rcases List.mem_cons.mp hq with rfl | hq
      · exact Or.inl hqs
      · exact Or.inr ⟨qg, hq, hqs⟩

theorem mem_subsOf_of_perm (gs1 gs2 : List (Int × List (String × List CObj)))
    (hp : List.Perm gs1 gs2) (s' : String) (o' : CObj)
    (h : o' ∈ subsOf gs1 s') : o' ∈ subsOf gs2 s' := by
  rw [mem_subsOf_iff] at h ⊢
  rcases h with ⟨pg, hpg, hs⟩
  exact ⟨pg, (hp.mem_iff).mp hpg, hs⟩

theorem mem_entrySubs_pushGroup (style : String) (o : CObj)
    (g : List (String × List CObj)) (s' : String) (o' : CObj)
    (h : o' ∈ entrySubs (pushGroup style o g) s') :
    o' ∈ entrySubs g s' ∨ (s' = style ∧ o' = o) := by
  induction g with
  | nil =>
    by_cases hs : style = s'
    · simp [pushGroup, entrySubs, hs] at h
      exact Or.inr ⟨hs.symm, h⟩
    · simp [pushGroup, entrySubs, hs] at h
  | cons e rest ih =>
    obtain ⟨s, lst⟩ := e
    by_cases hs : s = style
    · by_cases hss : s = s'
      · simp only [pushGroup, if_pos hs, entrySubs, if_pos hss, List.mem_append] at h
        simp only [entrySubs, if_pos hss, List.mem_append]
        rcases h with (h | h) | h
        · exact Or.inl (Or.inl h)
        · simp at h
          exact Or.inr ⟨hss.symm.trans hs, h⟩
        · exact Or.inl (Or.inr h)
      · simp only [pushGroup, if_pos hs, entrySubs, if_neg hss, List.nil_append] at h
        simp only [entrySubs, if_neg hss, List.nil_append]
        exact Or.inl h
    · by_cases hss : s = s'
      · simp only [pushGroup, if_neg hs, entrySubs, if_pos hss, List.mem_append] at h
        simp only [entrySubs, if_pos hss, List.mem_append]
        rcases h with h | h
        · exact Or.inl (Or.inl h)
        · rcases ih h with h1 | h1
          · exact Or.inl (Or.inr h1)
          · exact Or.inr h1
      · simp only [pushGroup, if_neg hs, entrySubs, if_neg hss, List.nil_append] at h
        simp only [entrySubs, if_neg hss, List.nil_append]
        exact ih h

theorem mem_subsOf_pushObj (p : Int) (style : String) (o : CObj)
    (gs : List (Int × List (String × List CObj))) (s' : String) (o' : CObj)
    (h : o' ∈ subsOf (pushObj p style o gs) s') :
    o' ∈ subsOf gs s' ∨ (s' = style ∧ o' = o) := by
  induction gs with
  | nil =>
    have h' : o' ∈ entrySubs (pushGroup style o []) s' := by
      simpa [pushObj, subsOf] using h
    rcases mem_entrySubs_pushGroup style o [] s' o' h' with h1 | h1
    · simp [entrySubs] at h1
    · exact Or.inr h1
  | cons pg rest ih =>
    obtain ⟨q, g⟩ := pg
    by_cases hq : q = p
    · simp only [pushObj, if_pos hq, subsOf, List.mem_append] at h
      simp only [subsOf, List.mem_append]
      rcases h with h | h
      · rcases mem_entrySubs_pushGroup style o g s' o' h with h1 | h1
        · exact Or.inl (Or.inl h1)
        · exact Or.inr h1
      · exact Or.inl (Or.inr h)
    · simp only [pushObj, if_neg hq, subsOf, List.mem_append] at h
      simp only [subsOf, List.mem_append]
      rcases h with h | h
      · exact Or.inl (Or.inl h)
      · rcases ih h with h1 | h1
        · exact Or.inl (Or.inr h1)
        · exact Or.inr h1

theorem mem_subsOf_groupByPriority (objs : List CObj) (style : String)
    (gs : List (Int × List (String × List CObj))) (s' : String) (o' : CObj)
    (h : o' ∈ subsOf (groupByPriority objs style gs) s') :
    o' ∈ subsOf gs s' ∨ (s' = style ∧ o' ∈ objs) := by
  induction objs generalizing gs with
  | nil => exact Or.inl h
  | cons a rest ih =>
    rcases ih (pushObj a.label.layout.priority style a gs) h with h1 | ⟨hs, ho⟩
    · rcases mem_subsOf_pushObj a.label.layout.priority style a gs s' o' h1 with h2 | ⟨hs, ho⟩
      · exact Or.inl h2
      · exact Or.inr ⟨hs, by simp [ho]⟩
    · exact Or.inr ⟨hs, List.mem_cons_of_mem a ho⟩

/-- C1: each style's kept sequence contains only objects that style
submitted for that tile: an object in the resolved keep entry of a style
was already in that style's keep entry before resolution (empty in any
real run) or is among the pending objects the style contributed; and the
grouping step of collide only ever adds the call's own objects under the
calling style's name, so a style's pending objects all come from that
style's collide calls. When nothing of a style survives, its kept entry
is the empty sequence (keepLookup's default). -/
theorem collision_c1_keep_subset_of_submitted (d : Discard) (tile : String)
    (ts : TileState) (rs : RepeatState) (P : PlacedStore) (style : String) (o : CObj) :
    (o ∈ keepLookup (endTile d tile ts rs P).keep style →
      o ∈ keepLookup ts.keep style ∨ o ∈ subsOf ts.objects style)
    ∧ ∀ (objs : List CObj) (st' : String) (gs : List (Int × List (String × List CObj))),
        o ∈ subsOf (groupByPriority objs st' gs) style →
          o ∈ subsOf gs style ∨ (style = st' ∧ o ∈ objs) := by
  constructor
  · intro h
    unfold endTile at h
    rcases mem_keep_foldl_priorities d tile (sortByPriority ts.objects) _ style o h
      with h1 | h1
    · exact Or.inl h1
    · exact Or.inr (mem_subsOf_of_perm _ _ (perm_sortByPriority ts.objects) style o h1)
  · intro objs st' gs h
    exact mem_subsOf_groupByPriority objs st' gs style o h

def c1obj : CObj := ⟨7, ⟨3, ⟨1, true, "g", 0, false⟩, (0, 0)⟩, none⟩

def c1ts : TileState := ⟨[], groupByPriority [c1obj] "roads" [], [], [], false⟩

/-- Witness for C1 at a concrete input: a tile whose pending objects
came from one collide call by style roads with one object; after
resolution the kept object is among that style's submissions. -/
theorem collision_c1_witness :
    (c1obj ∈ keepLookup c1ts.keep "roads" ∨ c1obj ∈ subsOf c1ts.objects "roads")
    ∧ (c1obj ∈ subsOf [] "roads" ∨ ("roads" = "roads" ∧ c1obj ∈ [c1obj])) := by
  have h := collision_c1_keep_subset_of_submitted (fun _ _ _ => false) "T" c1ts
    (fun _ _ => []) (fun _ => none) "roads" c1obj
  exact ⟨h.1 (by decide), h.2 [c1obj] "roads" [] (by decide)⟩
